import Mathlib

/-!
Shallow embedding of the ASIC Gazette scraper (`mainGazzette2020.py`).

Pure text processing, per-cell link extraction, the row/table parsers, the
schema-widening state, header generation, record normalization, the
no-year-anchor fallback of the orchestrator, and year-label resolution are
translated as executable Lean definitions; theorems about the claimed
properties follow the definitions.
-/

namespace ASICScraper

/-- The whitespace predicate of Python string splitting/stripping
(`str.split()` / `str.strip()` with no arguments): ASCII whitespace,
the C1 separator controls, and the Unicode space characters. -/
def pyIsSpace (c : Char) : Bool :=
  c = ' ' || c = '\t' || c = '\n' || c = '\r' || c = '\x0b' || c = '\x0c' ||
  c = '\x1c' || c = '\x1d' || c = '\x1e' || c = '\x1f' || c = '\x85' ||
  c = ' ' || c = ' ' || c = ' ' || c = ' ' ||
  c = ' ' || c = ' ' || c = ' ' || c = ' ' ||
  c = ' ' || c = ' ' || c = ' ' || c = ' ' ||
  c = ' ' || c = ' ' || c = ' ' || c = ' ' ||
  c = ' ' || c = '　'

/-- Negation of `pyIsSpace`, the word-character predicate. -/
def notSp (c : Char) : Bool := !pyIsSpace c

/-- `str.strip()`: drop leading and trailing whitespace. -/
def pyStrip (l : List Char) : List Char :=
  ((l.dropWhile pyIsSpace).reverse.dropWhile pyIsSpace).reverse

/-- `str.strip()` at the `String` level. -/
def pyStripStr (s : String) : String := String.mk (pyStrip s.data)

/-- The six characters of the literal HTML-entity spelling of a
non-breaking space, as replaced by `_clean_text` (line 92). -/
def nbspEntity : List Char := ['&', 'n', 'b', 's', 'p', ';']

/-- `text.replace('&nbsp;', ' ')`: leftmost non-overlapping replacement of
the entity spelling by a single ordinary space. -/
def replaceEntity : List Char → List Char
  | '&' :: 'n' :: 'b' :: 's' :: 'p' :: ';' :: rest => ' ' :: replaceEntity rest
  | c :: cs => c :: replaceEntity cs
  | [] => []

/-- `text.replace(' ', ' ')` applied characterwise. -/
def replaceNbspChar (l : List Char) : List Char :=
  l.map (fun c => if c = ' ' then ' ' else c)

/-- `str.split()` with no arguments: the maximal runs of non-whitespace
characters, in order, empties discarded. -/
def words : List Char → List (List Char)
  | [] => []
  | c :: cs =>
    if pyIsSpace c then words cs
    else
      match words cs, cs with
      | [], _ => [[c]]
      | _ :: _, [] => [[c]]
      | w :: ws, d :: _ => if pyIsSpace d then [c] :: w :: ws else (c :: w) :: ws

/-- `' '.join(ws)`: interleave a single space between consecutive words. -/
def joinWords : List (List Char) → List Char
  | [] => []
  | [w] => w
  | w :: ws => w ++ ' ' :: joinWords ws

/-- The character-list body of `_clean_text` (lines 87-93): replace the
non-breaking-space character, replace the entity spelling, split on
whitespace, rejoin with single spaces, strip the ends. -/
def cleanChars (l : List Char) : List Char :=
  pyStrip (joinWords (words (replaceEntity (replaceNbspChar l))))

/-- `_clean_text` (lines 87-93): empty input short-circuits to `""`. -/
def _clean_text (s : String) : String :=
  if s.data = [] then "" else String.mk (cleanChars s.data)

/-- Modelled from the spec: the external standard-library relative-URL
resolution (`urllib.parse.urljoin`), called by `_resolve_url` but not
defined in this repository.  An absolute-path reference is joined against
the base URL's scheme and authority; any other relative reference replaces
the last path segment of the base. -/
def findSub (pat l : List Char) : Option Nat :=
  (List.range (l.length + 1)).find? (fun i => pat.isPrefixOf (l.drop i))

/-- Modelled from the spec: scheme plus authority of a base URL, i.e.
everything up to the first slash after the "://" marker. -/
def schemeAuthorityChars (l : List Char) : List Char :=
  match findSub ("://".data) l with
  | none => l
  | some i => l.take (i + 3) ++ (l.drop (i + 3)).takeWhile (fun c => c ≠ '/')

/-- Modelled from the spec: `urljoin(base, url)` for the cases the spec
names (empty reference, absolute-path reference, relative reference). -/
def urljoin (base url : String) : String :=
  if url = "" then base
  else if url.data.head? = some '/' then
    String.mk (schemeAuthorityChars base.data) ++ url
  else
    String.mk ((base.data.reverse.dropWhile (fun c => c ≠ '/')).reverse) ++ url

/-- `_resolve_url` (lines 79-85): empty input yields `""`, an URL starting
with "http" is returned unchanged, anything else is joined to the base. -/
def _resolve_url (base url : String) : String :=
  if url = "" then ""
  else if ("http".data).isPrefixOf url.data then url
  else urljoin base url

/-- A hyperlink element inside a table cell: its visible text and its
`href` attribute (`none` when the attribute is absent). -/
structure Link where
  text : String
  href : Option String
deriving DecidableEq

/-- A table cell: its full visible text and its hyperlink elements in
document order. -/
structure Cell where
  text : String
  links : List Link
deriving DecidableEq

/-- The cell used when an index is out of range (unreachable under the
row parser's length guard). -/
def emptyCell : Cell := { text := "", links := [] }

/-- A table row: its `td` cells in document order and whether it contains
any `th` element (the header-row heuristic of `_extract_table_data`). -/
structure Row where
  cells : List Cell
  has_th : Bool
deriving DecidableEq

/-- A table: its `tbody` rows when a `tbody` element exists, its direct
`tr` rows otherwise, and whether the table is currently displayed. -/
structure Table where
  tbody : Option (List Row)
  all_rows : List Row
  displayed : Bool
deriving DecidableEq

/-- The process-wide Schema State `self.max_links` (lines 40-44). -/
structure SchemaState where
  asic : Nat
  business : Nat
  other : Nat
deriving DecidableEq

/-- The initial Schema State `{ASIC Gazette: 1, Business Gazette: 1,
Other / Notes: 1}` (lines 40-44). -/
def initMaxLinks : SchemaState := { asic := 1, business := 1, other := 1 }

/-- `_extract_cell_content` (lines 95-115): the cell's cleaned full text,
and the resolved stripped `href` of every link whose `href` is truthy. -/
def _extract_cell_content (base : String) (cell : Cell) : String × List String :=
  (_clean_text cell.text,
   cell.links.filterMap (fun l =>
     match l.href with
     | some u => if u ≠ "" then some (_resolve_url base (pyStripStr u)) else none
     | none => none))

/-- `_extract_multiple_links_data` (lines 117-142): the cleaned nonempty
link texts, and the resolved stripped truthy hrefs, as two independently
filtered lists in document order. -/
def _extract_multiple_links_data (base : String) (cell : Cell) :
    List String × List String :=
  if cell.links = [] then ([], [])
  else
    (cell.links.filterMap (fun l =>
        if _clean_text l.text ≠ "" then some (_clean_text l.text) else none),
     cell.links.filterMap (fun l =>
        match l.href with
        | some u => if u ≠ "" then some (_resolve_url base (pyStripStr u)) else none
        | none => none))

/-- The title/URL fix-up the row parser applies to each Gazette cell
(lines 162-172 and 186-196): a cell with no link titles but nonempty text
becomes one text-only title; a cell with neither becomes one empty
occurrence; otherwise the extracted lists are kept. -/
def gazetteTitlesUrls (base : String) (cell : Cell) : List String × List String :=
  if (_extract_multiple_links_data base cell).1 = [] ∧
      (_extract_cell_content base cell).1 ≠ "" then
    ([(_extract_cell_content base cell).1], [""])
  else if (_extract_multiple_links_data base cell).1 = [] then ([""], [""])
  else _extract_multiple_links_data base cell

/-- `str.join` with a fixed separator, as used for the 5-column
Other/Notes merge (line 246). -/
def pyJoin (sep : String) : List String → String
  | [] => ""
  | [x] => x
  | x :: xs => x ++ sep ++ pyJoin sep xs

/-- Cell access `cells[i]` (total; the row parser guards the length). -/
def cellAt (row : Row) (i : Nat) : Cell := row.cells.getD i emptyCell

/-- The Other/Notes text and URL lists of a row (lines 210-248): in the
4-column layout the Notes cell's nonempty text becomes one entry with the
cell's link URLs (or one empty URL); in the 5-column layout the Other and
Notes texts are joined with ". " and their link URLs concatenated. -/
def otherNotesTextsUrls (base : String) (cells : List Cell) :
    List String × List String :=
  if cells.length = 4 then
    if (_extract_cell_content base (cells.getD 3 emptyCell)).1 ≠ "" then
      ([(_extract_cell_content base (cells.getD 3 emptyCell)).1],
       if (_extract_multiple_links_data base (cells.getD 3 emptyCell)).2 = [] then [""]
       else (_extract_multiple_links_data base (cells.getD 3 emptyCell)).2)
    else ([], [])
  else
    if (if (_extract_cell_content base (cells.getD 3 emptyCell)).1 ≠ "" then
          [(_extract_cell_content base (cells.getD 3 emptyCell)).1] else []) ++
       (if (_extract_cell_content base (cells.getD 4 emptyCell)).1 ≠ "" then
          [(_extract_cell_content base (cells.getD 4 emptyCell)).1] else []) ≠ [] then
      ([pyJoin ". "
         ((if (_extract_cell_content base (cells.getD 3 emptyCell)).1 ≠ "" then
             [(_extract_cell_content base (cells.getD 3 emptyCell)).1] else []) ++
          (if (_extract_cell_content base (cells.getD 4 emptyCell)).1 ≠ "" then
             [(_extract_cell_content base (cells.getD 4 emptyCell)).1] else []))],
       (_extract_multiple_links_data base (cells.getD 3 emptyCell)).2 ++
       (_extract_multiple_links_data base (cells.getD 4 emptyCell)).2)
    else ([], [])

/-- The indexed field pairs a Gazette column stores for its zipped
(title, url) occurrences (lines 175-181 and 199-205): occurrence 0 uses
the unsuffixed names, occurrence `i ≥ 1` the `_i`-suffixed names. -/
def indexedPairFields (title0 url0 pfxTitle pfxUrl : String)
    (pairs : List (String × String)) : List (String × String) :=
  pairs.enum.flatMap (fun p =>
    if p.1 = 0 then [(title0, p.2.1), (url0, p.2.2)]
    else [(pfxTitle ++ toString p.1, p.2.1), (pfxUrl ++ toString p.1, p.2.2)])

/-- The Other/Notes fields of a record (lines 250-265): when any text
entry exists, each text gets its positional URL (empty when missing) and
every surplus URL gets a title-less indexed URL field; when no text entry
exists, one empty occurrence is stored. -/
def otherNotesFields (texts urls : List String) : List (String × String) :=
  if texts ≠ [] then
    texts.enum.flatMap (fun p =>
      if p.1 = 0 then
        [("Other / Notes", p.2), ("Other / Notes_URL", urls.getD 0 "")]
      else
        [("Other / Notes_" ++ toString p.1, p.2),
         ("Other / Notes_URL_" ++ toString p.1, urls.getD p.1 "")]) ++
    (List.range' texts.length (urls.length - texts.length)).map
      (fun i => ("Other / Notes_URL_" ++ toString i, urls.getD i ""))
  else [("Other / Notes", ""), ("Other / Notes_URL", "")]

/-- A sample 4-cell row whose Notes cell holds text and two links. -/
def sampleNotesRow : Row :=
  { cells := [emptyCell, emptyCell, emptyCell,
      { text := "See a b",
        links := [{ text := "a", href := some "http://a" },
                  { text := "b", href := some "http://b" }] }],
    has_th := false }

/-- The URL slot list the 4-column layout gives the Notes cell
(line 222): the cell's extracted link URLs, or a single empty slot when
there are none. -/
def notesUrlSlots (base : String) (row : Row) : List String :=
  if (_extract_multiple_links_data base (cellAt row 3)).2 = [] then [""]
  else (_extract_multiple_links_data base (cellAt row 3)).2

/-- `_extract_row_data` (lines 144-275), with the ambient `self.max_links`
mutation made explicit as a state in/out pair: a row with fewer than 4
cells is rejected and leaves the state unchanged; otherwise the record is
built in insertion order and each Schema State entry is raised to the
maximum of its previous value and this row's count. -/
def _extract_row_data (base : String) (st : SchemaState) (row : Row)
    (year : String) : Option (List (String × String)) × SchemaState :=
  if row.cells.length < 4 then (none, st) else
  let date := _clean_text (cellAt row 0).text
  let asic := gazetteTitlesUrls base (cellAt row 1)
  let business := gazetteTitlesUrls base (cellAt row 2)
  let other := otherNotesTextsUrls base row.cells
  let record :=
    [("Year", year), ("Date", date)] ++
    indexedPairFields "ASIC Gazette_title" "ASIC Gazette_Url"
      "ASIC Gazette_" "ASIC Gazette_Url_" (asic.1.zip asic.2) ++
    indexedPairFields "Business Gazette_title" "Business Gazette_Url"
      "Business Gazette_" "Business Gazette_Url_" (business.1.zip business.2) ++
    otherNotesFields other.1 other.2
  (some record,
   { asic := max st.asic asic.1.length,
     business := max st.business business.1.length,
     other := max st.other (max other.1.length other.2.length) })

/-- The data rows of a table (lines 282-290): the `tbody` rows when a
`tbody` exists, otherwise the direct rows containing no header cell. -/
def dataRows (t : Table) : List Row :=
  match t.tbody with
  | some rs => rs
  | none => t.all_rows.filter (fun r => !r.has_th)

/-- The row loop of `_extract_table_data` (lines 292-295): parse each row
in order, threading the Schema State, keeping the accepted records. -/
def extractRowsLoop (base year : String) :
    SchemaState → List Row → List (List (String × String)) × SchemaState
  | st, [] => ([], st)
  | st, r :: rs =>
    match _extract_row_data base st r year with
    | (some rec, s) =>
      (rec :: (extractRowsLoop base year s rs).1, (extractRowsLoop base year s rs).2)
    | (none, s) => extractRowsLoop base year s rs

/-- `_extract_table_data` (lines 277-301): run the row loop over the
table's data rows. -/
def _extract_table_data (base : String) (st : SchemaState) (t : Table)
    (year : String) : List (List (String × String)) × SchemaState :=
  extractRowsLoop base year st (dataRows t)

/-- `_generate_csv_headers` (lines 379-398). -/
def _generate_csv_headers (m : SchemaState) : List String :=
  ["Year", "Date"] ++
  (["ASIC Gazette_title", "ASIC Gazette_Url"] ++
    (List.range' 1 (m.asic - 1)).flatMap
      (fun i => ["ASIC Gazette_" ++ toString i, "ASIC Gazette_Url_" ++ toString i])) ++
  (["Business Gazette_title", "Business Gazette_Url"] ++
    (List.range' 1 (m.business - 1)).flatMap
      (fun i => ["Business Gazette_" ++ toString i, "Business Gazette_Url_" ++ toString i])) ++
  (["Other / Notes", "Other / Notes_URL"] ++
    (List.range' 1 (m.other - 1)).flatMap
      (fun i => ["Other / Notes_" ++ toString i, "Other / Notes_URL_" ++ toString i]))

/-- `_normalize_row_data` (lines 400-405): for every header, the record's
value when present, else the empty string, in header order. -/
def _normalize_row_data (row_data : List (String × String))
    (headers : List String) : List (String × String) :=
  headers.map (fun h => (h, (List.lookup h row_data).getD ""))

/-- The orchestrator's no-year-anchor fallback (lines 482-495): parse the
first 3 of the page's tables, labeling the records of table `i` with year
`Table_i`, accumulating records and threading the Schema State. -/
def processFallbackTables (base : String) (st : SchemaState)
    (tables : List Table) : List (List (String × String)) × SchemaState :=
  (tables.take 3).enum.foldl (fun acc p =>
    let r := _extract_table_data base acc.2 p.2 ("Table_" ++ toString p.1)
    (acc.1 ++ r.1, r.2)) ([], st)

/-- Python's `in` on strings: does `pat` occur as a contiguous block of
`l`?  Executable occurrence test (tried at every start position). -/
def containsSeq (pat l : List Char) : Bool :=
  (List.range (l.length + 1)).any (fun i => pat.isPrefixOf (l.drop i))

/-- The ten year tokens of the orchestrator (lines 441 and 516). -/
def yearTokens : List String :=
  ["2020", "2019", "2018", "2017", "2016", "2015", "2014", "2013", "2012", "2011"]

/-- Year-label resolution (lines 514-519): the first of the ten tokens
contained in the element's cleaned text, else "Unknown". -/
def extractYearFromText (t : String) : String :=
  match yearTokens.find? (fun y => containsSeq y.data t.data) with
  | some y => y
  | none => "Unknown"

/-- Decimal value of a digit string (Python `int` on an `isdigit` text). -/
def digitsToNat (l : List Char) : Nat :=
  l.foldl (fun n c => n * 10 + (c.toNat - 48)) 0

/-- The whole-text fallback scan's acceptance test (line 454): the cleaned
text is all digits, of length 4, and between 2011 and 2025 inclusive. -/
def isYearTextCandidate (t : String) : Bool :=
  (decide (t.data ≠ []) && t.data.all Char.isDigit) && t.data.length = 4 &&
  (2011 ≤ digitsToNat t.data && digitsToNat t.data ≤ 2025)

/-- The number of title fields (occurrence slots) the ASIC Gazette column
contributed to a record: fields whose key extends "ASIC Gazette_" but not
"ASIC Gazette_Url". -/
def asicTitleKeyCount (rec : List (String × String)) : Nat :=
  rec.countP (fun kv =>
    ("ASIC Gazette_".data).isPrefixOf kv.1.data &&
    !(("ASIC Gazette_Url".data).isPrefixOf kv.1.data))

/-- Spec-side definition for claim C1, following the spec's words: always
Year, Date, then for each logical column in fixed order its index-0
title/URL pair followed by, for i from 1 to max_occurrences-1, the
indexed pair. -/
def specHeaderBlock (t0 u0 pt pu : String) (maxOcc : Nat) : List String :=
  [t0, u0] ++ (List.range' 1 (maxOcc - 1)).flatMap
    (fun i => [pt ++ toString i, pu ++ toString i])

/-- Spec-side final header list for claim C1. -/
def finalHeadersSpec (m : SchemaState) : List String :=
  ["Year", "Date"] ++
  specHeaderBlock "ASIC Gazette_title" "ASIC Gazette_Url"
    "ASIC Gazette_" "ASIC Gazette_Url_" m.asic ++
  specHeaderBlock "Business Gazette_title" "Business Gazette_Url"
    "Business Gazette_" "Business Gazette_Url_" m.business ++
  specHeaderBlock "Other / Notes" "Other / Notes_URL"
    "Other / Notes_" "Other / Notes_URL_" m.other

/-- The Schema State after parsing a sequence of rows in order (the
state component of the run, records discarded). -/
def stateAfterRows (base year : String) (st : SchemaState) (rows : List Row) :
    SchemaState :=
  rows.foldl (fun s r => (_extract_row_data base s r year).2) st

/-- No two adjacent ordinary spaces (run-collapse normal form). -/
def noDoubleSpace : List Char → Bool
  | a :: b :: t => !(a = ' ' && b = ' ') && noDoubleSpace (b :: t)
  | _ => true

/-- Spec-side definition for claim C5, following the claim's words: one
(title, url) pair per hyperlink in document order, the title being the
cleaned link text and the url the resolved href, a missing href yielding
an empty URL component. -/
def linkPairsSpec (base : String) (cell : Cell) : List (String × String) :=
  cell.links.map (fun l =>
    (_clean_text l.text, _resolve_url base (pyStripStr (l.href.getD ""))))

/-- Spec-side definition for claim C7, following the claim's words: the
fallback parses only the currently-visible tables, at most the first 3. -/
def fallbackVisibleTablesSpec (base : String) (st : SchemaState)
    (tables : List Table) : List (List (String × String)) × SchemaState :=
  ((tables.filter (fun t => t.displayed)).take 3).enum.foldl (fun acc p =>
    let r := _extract_table_data base acc.2 p.2 ("Table_" ++ toString p.1)
    (acc.1 ++ r.1, r.2)) ([], st)

end ASICScraper

namespace ASICScraper

/-! ### Shared lemmas about the row parser's Schema State component -/

lemma extract_row_data_snd (base : String) (st : SchemaState) (row : Row)
    (year : String) :
    (_extract_row_data base st row year).2 =
    if row.cells.length < 4 then st else
    { asic := max st.asic (gazetteTitlesUrls base (cellAt row 1)).1.length,
      business := max st.business (gazetteTitlesUrls base (cellAt row 2)).1.length,
      other := max st.other (max (otherNotesTextsUrls base row.cells).1.length
        (otherNotesTextsUrls base row.cells).2.length) } := by
  unfold _extract_row_data
  split
  · rfl
  · rfl

lemma stateAfterRows_nil (base year : String) (st : SchemaState) :
    stateAfterRows base year st [] = st := rfl

lemma stateAfterRows_cons (base year : String) (st : SchemaState) (r : Row)
    (rs : List Row) :
    stateAfterRows base year st (r :: rs) =
      stateAfterRows base year (_extract_row_data base st r year).2 rs := rfl

lemma extractRowsLoop_snd (base year : String) (st : SchemaState)
    (rows : List Row) :
    (extractRowsLoop base year st rows).2 = stateAfterRows base year st rows := by
  induction rows generalizing st with
  | nil => rfl
  | cons r rs ih =>
    rw [stateAfterRows_cons]
    rcases h : _extract_row_data base st r year with ⟨o, s⟩
    cases o <;> simp only [extractRowsLoop, h] <;> exact ih s

lemma table_state_eq (base : String) (st : SchemaState) (t : Table)
    (year : String) :
    (_extract_table_data base st t year).2 = stateAfterRows base year st (dataRows t) := by
  unfold _extract_table_data
  exact extractRowsLoop_snd base year st (dataRows t)

lemma row_step_comm (base year : String) (x y : Row) (z : SchemaState) :
    (_extract_row_data base (_extract_row_data base z x year).2 y year).2 =
    (_extract_row_data base (_extract_row_data base z y year).2 x year).2 := by
  simp only [extract_row_data_snd]
  by_cases h1 : x.cells.length < 4 <;> by_cases h2 : y.cells.length < 4 <;>
    simp [h1, h2, sup_right_comm]

/-- C1: the generated header list is exactly Year, Date, then for each
logical column in fixed order its index-0 title/URL pair followed by the
indexed pairs for i from 1 to max_occurrences-1; and it is a pure function
of the final Schema State, invariant under reordering of the parsed rows. -/
theorem C1_final_headers_spec_and_order_independent :
    (∀ m : SchemaState, _generate_csv_headers m = finalHeadersSpec m) ∧
    (∀ (base year : String) (st : SchemaState) (rows₁ rows₂ : List Row),
      rows₁.Perm rows₂ →
      _generate_csv_headers (stateAfterRows base year st rows₁) =
        _generate_csv_headers (stateAfterRows base year st rows₂)) := by
  constructor
  · intro m; rfl
  · intro base year st rows₁ rows₂ hperm
    have hst : stateAfterRows base year st rows₁ = stateAfterRows base year st rows₂ := by
      unfold stateAfterRows
      exact hperm.foldl_eq' (fun x _ y _ z => row_step_comm base year x y z) st
    rw [hst]

/-- Witness for C1: two concrete rows processed in either order yield the
same headers. -/
theorem C1_witness :
    _generate_csv_headers (stateAfterRows "https://asic.gov.au" "2020" initMaxLinks
      [{ cells := [emptyCell, emptyCell, emptyCell, emptyCell], has_th := false },
       { cells := [emptyCell,
          { text := "A B", links := [{ text := "A", href := some "http://a" },
                                     { text := "B", href := some "http://b" }] },
          emptyCell, emptyCell], has_th := false }]) =
    _generate_csv_headers (stateAfterRows "https://asic.gov.au" "2020" initMaxLinks
      [{ cells := [emptyCell,
          { text := "A B", links := [{ text := "A", href := some "http://a" },
                                     { text := "B", href := some "http://b" }] },
          emptyCell, emptyCell], has_th := false },
       { cells := [emptyCell, emptyCell, emptyCell, emptyCell], has_th := false }]) :=
  C1_final_headers_spec_and_order_independent.2 "https://asic.gov.au" "2020"
    initMaxLinks _ _ (List.Perm.swap _ _ _)

end ASICScraper


namespace ASICScraper

/-! ### C4: record normalization -/

lemma lookup_normalize (rec : List (String × String)) (headers : List String)
    (k : String) :
    List.lookup k (_normalize_row_data rec headers) =
      if k ∈ headers then some ((List.lookup k rec).getD "") else none := by
  induction headers with
  | nil => rfl
  | cons h hs ih =>
    by_cases hk : k = h
    · subst hk
      simp [_normalize_row_data, List.lookup]
    · have hb : (k == h) = false := beq_false_of_ne hk
      simp [_normalize_row_data, List.lookup, hb, List.mem_cons, hk] at ih ⊢
      exact ih

/-- C4: normalization returns a record whose keys are exactly the header
names in header order, each value copied from the input when present and
empty otherwise, inputs outside the header list silently dropped; in the
spec's widening example a record with one ASIC occurrence, normalized
against headers widened to three, carries empty strings (not missing keys)
at indices 1 and 2. -/
theorem C4_normalize_pads_and_drops :
    (∀ (rec : List (String × String)) (headers : List String),
      (_normalize_row_data rec headers).map Prod.fst = headers) ∧
    (∀ (rec : List (String × String)) (headers : List String)
      (p : String × String), p ∈ _normalize_row_data rec headers →
      p.2 = (List.lookup p.1 rec).getD "") ∧
    (∀ (rec : List (String × String)) (headers : List String) (k : String),
      k ∉ headers → List.lookup k (_normalize_row_data rec headers) = none) ∧
    (_normalize_row_data
        [("Year", "2020"), ("Date", "1 Jan"),
         ("ASIC Gazette_title", "A"), ("ASIC Gazette_Url", "http://a"),
         ("Business Gazette_title", ""), ("Business Gazette_Url", ""),
         ("Other / Notes", ""), ("Other / Notes_URL", "")]
        (_generate_csv_headers { asic := 3, business := 1, other := 1 }) =
      [("Year", "2020"), ("Date", "1 Jan"),
       ("ASIC Gazette_title", "A"), ("ASIC Gazette_Url", "http://a"),
       ("ASIC Gazette_1", ""), ("ASIC Gazette_Url_1", ""),
       ("ASIC Gazette_2", ""), ("ASIC Gazette_Url_2", ""),
       ("Business Gazette_title", ""), ("Business Gazette_Url", ""),
       ("Other / Notes", ""), ("Other / Notes_URL", "")]) := by
  refine ⟨?_, ?_, ?_, by decide⟩
  · intro rec headers
    simp [_normalize_row_data, List.map_map, Function.comp_def]
  · intro rec headers p hp
    simp only [_normalize_row_data, List.mem_map] at hp
    obtain ⟨h, _, rfl⟩ := hp
    rfl
  · intro rec headers k hk
    rw [lookup_normalize]
    simp [hk]

/-- Witness for C4: a key absent from the headers is dropped. -/
theorem C4_witness :
    List.lookup "X" (_normalize_row_data [("X", "v")] ["Year"]) = none :=
  C4_normalize_pads_and_drops.2.2.1 [("X", "v")] ["Year"] "X" (by decide)

/-! ### C8: rejection of short rows -/

lemma extractRowsLoop_skip (base year : String) (row : Row)
    (hrow : row.cells.length < 4) (rs1 rs2 : List Row) (st : SchemaState) :
    extractRowsLoop base year st (rs1 ++ row :: rs2) =
      extractRowsLoop base year st (rs1 ++ rs2) := by
  have hnone : ∀ s : SchemaState, _extract_row_data base s row year = (none, s) := by
    intro s
    unfold _extract_row_data
    simp [hrow]
  induction rs1 generalizing st with
  | nil => simp [extractRowsLoop, hnone st]
  | cons r rs ih =>
    simp only [List.cons_append, extractRowsLoop]
    rcases h : _extract_row_data base st r year with ⟨o, s⟩
    cases o <;> simp only [extractRowsLoop, h, List.append_eq] <;> rw [ih]

/-- C8: a row with fewer than 4 cells is rejected (the parser returns null
and leaves the Schema State untouched), and the table parser's output is
exactly the output without that row: its presence never aborts or otherwise
changes the processing of the remaining rows. -/
theorem C8_short_row_rejected_table_continues :
    (∀ (base year : String) (st : SchemaState) (row : Row),
      row.cells.length < 4 → _extract_row_data base st row year = (none, st)) ∧
    (∀ (base year : String) (st : SchemaState) (row : Row),
      row.cells.length < 4 →
      ∀ (rs1 rs2 ar1 ar2 : List Row) (d1 d2 : Bool),
        _extract_table_data base st
          { tbody := some (rs1 ++ row :: rs2), all_rows := ar1, displayed := d1 } year =
        _extract_table_data base st
          { tbody := some (rs1 ++ rs2), all_rows := ar2, displayed := d2 } year) := by
  constructor
  · intro base year st row hrow
    unfold _extract_row_data
    simp [hrow]
  · intro base year st row hrow rs1 rs2 ar1 ar2 d1 d2
    unfold _extract_table_data dataRows
    exact extractRowsLoop_skip base year row hrow rs1 rs2 st

/-- Witness for C8: a concrete 3-cell row is rejected and a concrete table
containing it parses as if it were absent. -/
theorem C8_witness :
    _extract_row_data "https://asic.gov.au" initMaxLinks
      { cells := [emptyCell, emptyCell, emptyCell], has_th := false } "2020" =
      (none, initMaxLinks) ∧
    _extract_table_data "https://asic.gov.au" initMaxLinks
      { tbody := some [{ cells := [emptyCell, emptyCell, emptyCell], has_th := false },
                       { cells := [emptyCell, emptyCell, emptyCell, emptyCell], has_th := false }],
        all_rows := [], displayed := true } "2020" =
    _extract_table_data "https://asic.gov.au" initMaxLinks
      { tbody := some [{ cells := [emptyCell, emptyCell, emptyCell, emptyCell], has_th := false }],
        all_rows := [], displayed := true } "2020" :=
  ⟨C8_short_row_rejected_table_continues.1 "https://asic.gov.au" "2020" initMaxLinks
      { cells := [emptyCell, emptyCell, emptyCell], has_th := false } (by decide),
   C8_short_row_rejected_table_continues.2 "https://asic.gov.au" "2020" initMaxLinks
      { cells := [emptyCell, emptyCell, emptyCell], has_th := false } (by decide)
      [] [{ cells := [emptyCell, emptyCell, emptyCell, emptyCell], has_th := false }]
      [] [] true true⟩

/-! ### C10: year-label resolution -/

/-- C10: an element whose cleaned text contains none of the ten literal
tokens 2020..2011 is labeled Unknown; in particular a text accepted by the
whole-text fallback scan (any 4-digit year 2011..2025) such as 2023 is
labeled Unknown, not with its own year. -/
theorem C10_unknown_label_for_out_of_token_years :
    (∀ t : String, (∀ y ∈ yearTokens, containsSeq y.data t.data = false) →
      extractYearFromText t = "Unknown") ∧
    (isYearTextCandidate "2023" = true ∧ extractYearFromText "2023" = "Unknown") := by
  constructor
  · intro t h
    unfold extractYearFromText
    cases hf : yearTokens.find? (fun y => containsSeq y.data t.data) with
    | none => rfl
    | some y =>
      have hy := List.find?_some hf
      have hmem := List.mem_of_find?_eq_some hf
      rw [h y hmem] at hy
      cases hy
  · exact ⟨by decide, by decide⟩

/-- Witness for C10: the general part applied at the concrete text 2023. -/
theorem C10_witness : extractYearFromText "2023" = "Unknown" :=
  C10_unknown_label_for_out_of_token_years.1 "2023" (by decide)

end ASICScraper


namespace ASICScraper

/-! ### C5: link extraction alignment -/

lemma filterMap_eq_map_of_forall {α β : Type} (f : α → Option β) (g : α → β)
    (l : List α) (h : ∀ x ∈ l, f x = some (g x)) : l.filterMap f = l.map g := by
  induction l with
  | nil => rfl
  | cons a as ih =>
    rw [List.filterMap_cons, h a (List.mem_cons_self a as), List.map_cons,
      ih (fun x hx => h x (List.mem_cons_of_mem a hx))]

/-- C5 counterexample: for a cell whose single hyperlink has text "A" and
no href, the extractor returns (["A"], []) — not the one-to-one aligned
pair list [("A", "")] the claim describes. -/
theorem C5_counterexample_no_href_link_drops_url :
    _extract_multiple_links_data "https://asic.gov.au"
        { text := "A", links := [{ text := "A", href := none }] } ≠
      ((linkPairsSpec "https://asic.gov.au"
          { text := "A", links := [{ text := "A", href := none }] }).map Prod.fst,
       (linkPairsSpec "https://asic.gov.au"
          { text := "A", links := [{ text := "A", href := none }] }).map Prod.snd) := by
  decide

/-- C5 amended: link extraction returns two independently filtered lists
in document order — titles of the links with nonempty cleaned text, URLs
of the links with truthy hrefs — each no longer than the link list, and
they align one-to-one with the cell's links exactly as the claim says
when every link has nonempty cleaned text and a truthy href. -/
theorem C5_amended_titles_urls_independent :
    (∀ (base : String) (cell : Cell),
      (_extract_multiple_links_data base cell).1.length ≤ cell.links.length ∧
      (_extract_multiple_links_data base cell).2.length ≤ cell.links.length) ∧
    (∀ (base : String) (cell : Cell),
      (∀ l ∈ cell.links, _clean_text l.text ≠ "" ∧ l.href.getD "" ≠ "") →
      _extract_multiple_links_data base cell =
        ((linkPairsSpec base cell).map Prod.fst,
         (linkPairsSpec base cell).map Prod.snd)) := by
  constructor
  · intro base cell
    unfold _extract_multiple_links_data
    split
    · simp
    · exact ⟨List.length_filterMap_le _ _, List.length_filterMap_le _ _⟩
  · intro base cell h
    unfold _extract_multiple_links_data linkPairsSpec
    have htitles : cell.links.filterMap (fun l =>
        if _clean_text l.text ≠ "" then some (_clean_text l.text) else none) =
        cell.links.map (fun l => _clean_text l.text) := by
      apply filterMap_eq_map_of_forall
      intro l hl
      simp [(h l hl).1]
    have hurls : cell.links.filterMap (fun l =>
        match l.href with
        | some u => if u ≠ "" then some (_resolve_url base (pyStripStr u)) else none
        | none => none) =
        cell.links.map (fun l => _resolve_url base (pyStripStr (l.href.getD ""))) := by
      apply filterMap_eq_map_of_forall
      intro l hl
      rcases hu : l.href with _ | u
      · exact absurd (by simp [hu]) (h l hl).2
      · have : u ≠ "" := by
          have := (h l hl).2
          rw [hu] at this
          simpa using this
        simp [hu, this]
    split
    · rename_i hnil
      rw [hnil]
      rfl
    · rw [htitles, hurls, List.map_map, List.map_map]
      rfl

/-- Witness for C5 (amended): a cell whose links all carry text and hrefs
extracts the aligned title/URL lists. -/
theorem C5_witness :
    _extract_multiple_links_data "https://asic.gov.au"
      { text := "A B", links := [{ text := "A", href := some "http://a" },
                                 { text := "B", href := some "http://b" }] } =
      ((linkPairsSpec "https://asic.gov.au"
          { text := "A B", links := [{ text := "A", href := some "http://a" },
                                     { text := "B", href := some "http://b" }] }).map Prod.fst,
       (linkPairsSpec "https://asic.gov.au"
          { text := "A B", links := [{ text := "A", href := some "http://a" },
                                     { text := "B", href := some "http://b" }] }).map Prod.snd) :=
  C5_amended_titles_urls_independent.2 "https://asic.gov.au"
    { text := "A B", links := [{ text := "A", href := some "http://a" },
                               { text := "B", href := some "http://b" }] } (by decide)

/-! ### C7: orchestrator fallback -/

/-- C7 counterexample: a page whose only table is hidden (not displayed)
still has that table parsed by the code's fallback, while the claim's
visible-only fallback parses nothing. -/
theorem C7_counterexample_hidden_table_parsed :
    processFallbackTables "https://asic.gov.au" initMaxLinks
        [{ tbody := some [{ cells := [emptyCell, emptyCell, emptyCell, emptyCell],
                            has_th := false }],
           all_rows := [], displayed := false }] ≠
      fallbackVisibleTablesSpec "https://asic.gov.au" initMaxLinks
        [{ tbody := some [{ cells := [emptyCell, emptyCell, emptyCell, emptyCell],
                            has_th := false }],
           all_rows := [], displayed := false }] := by
  decide

/-- C7 amended: the fallback parses the first 3 of all the page's tables
(visible or not), labeling the i-th parsed table's records Table_i
(0-based), and returns the accumulated records; with exactly two tables it
returns the combined records of both, labeled Table_0 and Table_1. -/
theorem C7_amended_fallback_first_three_all_tables :
    (∀ (base : String) (st : SchemaState) (tables : List Table),
      processFallbackTables base st tables =
        processFallbackTables base st (tables.take 3)) ∧
    (∀ (base : String) (st : SchemaState) (t0 t1 : Table),
      processFallbackTables base st [t0, t1] =
        ((_extract_table_data base st t0 "Table_0").1 ++
           (_extract_table_data base
             (_extract_table_data base st t0 "Table_0").2 t1 "Table_1").1,
         (_extract_table_data base
           (_extract_table_data base st t0 "Table_0").2 t1 "Table_1").2)) := by
  constructor
  · intro base st tables
    unfold processFallbackTables
    rw [List.take_take]
    norm_num
  · intro base st t0 t1
    have h0 : "Table_" ++ toString (0 : Nat) = "Table_0" := rfl
    have h1 : "Table_" ++ toString (1 : Nat) = "Table_1" := rfl
    simp [processFallbackTables, List.enum, List.enumFrom, h0, h1]

end ASICScraper


namespace ASICScraper

/-! ### Key/lookup toolkit for reasoning about record field names -/

lemma head_data_append (q s : String) (c : Char) (h : q.data.head? = some c) :
    (q ++ s).data.head? = some c := by
  rw [String.data_append, List.head?_append, h]
  rfl

lemma ne_of_data_head (a b : String) (c d : Char) (ha : a.data.head? = some c)
    (hb : b.data.head? = some d) (hcd : c ≠ d) : a ≠ b := by
  intro e
  rw [e] at ha
  rw [ha] at hb
  exact hcd (Option.some.inj hb)

lemma lookup_eq_none_of_keys {β : Type} (k : String) (l : List (String × β))
    (h : ∀ p ∈ l, (k == p.1) = false) : List.lookup k l = none := by
  induction l with
  | nil => rfl
  | cons p ps ih =>
    obtain ⟨a, b⟩ := p
    have hk := h (a, b) (List.mem_cons_self _ _)
    simp only [List.lookup, hk]
    exact ih (fun q hq => h q (List.mem_cons_of_mem _ hq))

lemma indexedPairFields_keys_head (t0 u0 pt pu : String) (c : Char)
    (h0 : t0.data.head? = some c) (h1 : u0.data.head? = some c)
    (h2 : pt.data.head? = some c) (h3 : pu.data.head? = some c)
    (pairs : List (String × String)) :
    ∀ p ∈ indexedPairFields t0 u0 pt pu pairs, p.1.data.head? = some c := by
  intro p hp
  unfold indexedPairFields at hp
  rw [List.mem_flatMap] at hp
  obtain ⟨q, _, hpq⟩ := hp
  by_cases h : q.1 = 0
  · simp [h] at hpq
    rcases hpq with h' | h'
    · rw [h']; exact h0
    · rw [h']; exact h1
  · simp [h] at hpq
    rcases hpq with h' | h'
    · rw [h']; exact head_data_append _ _ _ h2
    · rw [h']; exact head_data_append _ _ _ h3

lemma otherNotesFields_keys_head (texts urls : List String) :
    ∀ p ∈ otherNotesFields texts urls, p.1.data.head? = some 'O' := by
  intro p hp
  unfold otherNotesFields at hp
  split at hp
  · rcases List.mem_append.mp hp with hp | hp
    · rw [List.mem_flatMap] at hp
      obtain ⟨q, _, hpq⟩ := hp
      by_cases h : q.1 = 0
      · simp [h] at hpq
        rcases hpq with h' | h'
        · rw [h']; rfl
        · rw [h']; rfl
      · simp [h] at hpq
        rcases hpq with h' | h'
        · rw [h']; exact head_data_append _ _ _ rfl
        · rw [h']; exact head_data_append _ _ _ rfl
    · rw [List.mem_map] at hp
      obtain ⟨i, _, hpq⟩ := hp
      rw [← hpq]
      exact head_data_append _ _ _ rfl
  · simp at hp
    rcases hp with h' | h'
    · rw [h']; rfl
    · rw [h']; rfl

lemma lookup_front_none (k year date : String) (c : Char)
    (hk : k.data.head? = some c)
    (hY : c ≠ 'Y') (hD : c ≠ 'D') (hA : c ≠ 'A') (hB : c ≠ 'B')
    (ap bp : List (String × String)) :
    List.lookup k ([("Year", year), ("Date", date)] ++
      indexedPairFields "ASIC Gazette_title" "ASIC Gazette_Url" "ASIC Gazette_"
        "ASIC Gazette_Url_" ap ++
      indexedPairFields "Business Gazette_title" "Business Gazette_Url"
        "Business Gazette_" "Business Gazette_Url_" bp) = none := by
  apply lookup_eq_none_of_keys
  intro p hp
  apply beq_false_of_ne
  rcases List.mem_append.mp hp with hp | hp
  · rcases List.mem_append.mp hp with hp | hp
    · simp at hp
      rcases hp with h' | h'
      · rw [h']; exact ne_of_data_head _ _ c 'Y' hk rfl hY
      · rw [h']; exact ne_of_data_head _ _ c 'D' hk rfl hD
    · have hh := indexedPairFields_keys_head "ASIC Gazette_title" "ASIC Gazette_Url"
        "ASIC Gazette_" "ASIC Gazette_Url_" 'A' rfl rfl rfl rfl ap p hp
      exact ne_of_data_head _ _ c 'A' hk hh hA
  · have hh := indexedPairFields_keys_head "Business Gazette_title" "Business Gazette_Url"
      "Business Gazette_" "Business Gazette_Url_" 'B' rfl rfl rfl rfl bp p hp
    exact ne_of_data_head _ _ c 'B' hk hh hB

lemma gazette_titles_ne_nil (base : String) (cell : Cell) :
    (gazetteTitlesUrls base cell).1 ≠ [] := by
  unfold gazetteTitlesUrls
  split
  · simp
  · split
    · simp
    · rename_i h1 h2
      exact h2

/-! ### C2: Schema State update and invariants -/

/-- C2 counterexample: for a row whose ASIC cell has two links with
nonempty text but only one truthy href, the record emits exactly one ASIC
occurrence, yet the ASIC Schema State entry is raised to 2, not to
max(previous, occurrences emitted) = 1. -/
theorem C2_counterexample_update_exceeds_occurrences :
    ((_extract_row_data "https://asic.gov.au" initMaxLinks
        { cells := [emptyCell,
            { text := "A B", links := [{ text := "A", href := some "http://a" },
                                       { text := "B", href := none }] },
            emptyCell, emptyCell], has_th := false } "2020").1.map
        asicTitleKeyCount = some 1) ∧
    (_extract_row_data "https://asic.gov.au" initMaxLinks
        { cells := [emptyCell,
            { text := "A B", links := [{ text := "A", href := some "http://a" },
                                       { text := "B", href := none }] },
            emptyCell, emptyCell], has_th := false } "2020").2.asic = 2 ∧
    (_extract_row_data "https://asic.gov.au" initMaxLinks
        { cells := [emptyCell,
            { text := "A B", links := [{ text := "A", href := some "http://a" },
                                       { text := "B", href := none }] },
            emptyCell, emptyCell], has_th := false } "2020").2.asic ≠
      max initMaxLinks.asic
        (((_extract_row_data "https://asic.gov.au" initMaxLinks
            { cells := [emptyCell,
                { text := "A B", links := [{ text := "A", href := some "http://a" },
                                           { text := "B", href := none }] },
                emptyCell, emptyCell], has_th := false } "2020").1.map
            asicTitleKeyCount).getD 0) := by
  refine ⟨by decide, by decide, by decide⟩

/-- C2 amended: the Schema State starts at all ones; after every accepted
row each entry becomes max(previous, n) where n is the post-fix-up title
count for the Gazette columns and max(#texts, #URLs) for Other / Notes (a
count that can exceed the occurrences actually emitted); rejected rows
leave it unchanged; hence every entry stays ≥ 1 over the whole run and the
state is monotonically non-decreasing. -/
theorem C2_amended_state_update_and_monotone :
    (initMaxLinks = { asic := 1, business := 1, other := 1 }) ∧
    (∀ (base year : String) (st : SchemaState) (row : Row),
      (_extract_row_data base st row year).2 =
        if row.cells.length < 4 then st else
        { asic := max st.asic (gazetteTitlesUrls base (cellAt row 1)).1.length,
          business := max st.business (gazetteTitlesUrls base (cellAt row 2)).1.length,
          other := max st.other (max (otherNotesTextsUrls base row.cells).1.length
            (otherNotesTextsUrls base row.cells).2.length) }) ∧
    (∀ (base year : String) (st : SchemaState) (rows : List Row),
      st.asic ≤ (stateAfterRows base year st rows).asic ∧
      st.business ≤ (stateAfterRows base year st rows).business ∧
      st.other ≤ (stateAfterRows base year st rows).other) ∧
    (∀ (base year : String) (rows : List Row),
      1 ≤ (stateAfterRows base year initMaxLinks rows).asic ∧
      1 ≤ (stateAfterRows base year initMaxLinks rows).business ∧
      1 ≤ (stateAfterRows base year initMaxLinks rows).other) := by
  have hmono : ∀ (base year : String) (st : SchemaState) (rows : List Row),
      st.asic ≤ (stateAfterRows base year st rows).asic ∧
      st.business ≤ (stateAfterRows base year st rows).business ∧
      st.other ≤ (stateAfterRows base year st rows).other := by
    intro base year st rows
    induction rows generalizing st with
    | nil => exact ⟨le_refl _, le_refl _, le_refl _⟩
    | cons r rs ih =>
      rw [stateAfterRows_cons]
      have hstep := extract_row_data_snd base st r year
      have h1 : st.asic ≤ (_extract_row_data base st r year).2.asic := by
        rw [hstep]; split
        · exact le_refl _
        · exact le_max_left _ _
      have h2 : st.business ≤ (_extract_row_data base st r year).2.business := by
        rw [hstep]; split
        · exact le_refl _
        · exact le_max_left _ _
      have h3 : st.other ≤ (_extract_row_data base st r year).2.other := by
        rw [hstep]; split
        · exact le_refl _
        · exact le_max_left _ _
      obtain ⟨g1, g2, g3⟩ := ih ((_extract_row_data base st r year).2)
      exact ⟨le_trans h1 g1, le_trans h2 g2, le_trans h3 g3⟩
  refine ⟨rfl, ?_, hmono, ?_⟩
  · intro base year st row
    exact extract_row_data_snd base st row year
  · intro base year rows
    exact hmono base year initMaxLinks rows

end ASICScraper


namespace ASICScraper

/-! ### C3: index-0 field presence -/

lemma extract_row_data_fst (base year : String) (st : SchemaState) (row : Row)
    (h : ¬ row.cells.length < 4) :
    (_extract_row_data base st row year).1 = some (
      [("Year", year), ("Date", _clean_text (cellAt row 0).text)] ++
      indexedPairFields "ASIC Gazette_title" "ASIC Gazette_Url" "ASIC Gazette_"
        "ASIC Gazette_Url_"
        ((gazetteTitlesUrls base (cellAt row 1)).1.zip
          (gazetteTitlesUrls base (cellAt row 1)).2) ++
      indexedPairFields "Business Gazette_title" "Business Gazette_Url"
        "Business Gazette_" "Business Gazette_Url_"
        ((gazetteTitlesUrls base (cellAt row 2)).1.zip
          (gazetteTitlesUrls base (cellAt row 2)).2) ++
      otherNotesFields (otherNotesTextsUrls base row.cells).1
        (otherNotesTextsUrls base row.cells).2) := by
  unfold _extract_row_data
  rw [if_neg h]

lemma extract_row_data_fst_none (base year : String) (st : SchemaState) (row : Row)
    (h : row.cells.length < 4) :
    (_extract_row_data base st row year).1 = none := by
  unfold _extract_row_data
  rw [if_pos h]

lemma lookup_ON_otherNotesFields (texts urls : List String) :
    (List.lookup "Other / Notes" (otherNotesFields texts urls)).isSome = true := by
  unfold otherNotesFields
  split
  · rename_i h
    rcases texts with _ | ⟨t, ts⟩
    · exact absurd rfl h
    · simp [List.lookup]
  · simp [List.lookup]

lemma lookup_ONU_otherNotesFields (texts urls : List String) :
    (List.lookup "Other / Notes_URL" (otherNotesFields texts urls)).isSome = true := by
  unfold otherNotesFields
  split
  · rename_i h
    rcases texts with _ | ⟨t, ts⟩
    · exact absurd rfl h
    · simp [List.lookup]
  · simp [List.lookup]

/-- C3 counterexample: a 4-cell row whose ASIC cell holds a single link
with text but no href is accepted, yet its record is missing both index-0
ASIC Gazette keys. -/
theorem C3_counterexample_missing_index0_keys :
    ((_extract_row_data "https://asic.gov.au" initMaxLinks
        { cells := [emptyCell,
            { text := "A", links := [{ text := "A", href := none }] },
            emptyCell, emptyCell], has_th := false } "2020").1.map
        (fun rec => List.lookup "ASIC Gazette_title" rec) = some none) ∧
    ((_extract_row_data "https://asic.gov.au" initMaxLinks
        { cells := [emptyCell,
            { text := "A", links := [{ text := "A", href := none }] },
            emptyCell, emptyCell], has_th := false } "2020").1.map
        (fun rec => List.lookup "ASIC Gazette_Url" rec) = some none) := by
  exact ⟨by decide, by decide⟩

/-- C3 amended: every accepted record always carries the index-0
Other / Notes keys; for each Gazette column the index-0 title/URL keys are
present whenever the column's post-fix-up URL list is nonempty — which
covers the empty cell, the text-only cell, and any cell with at least one
truthy href — but a cell whose links yield titles and no URLs produces no
keys at all for that column. -/
theorem C3_amended_index0_presence :
    ∀ (base year : String) (st : SchemaState) (row : Row)
      (rec : List (String × String)),
      (_extract_row_data base st row year).1 = some rec →
      (List.lookup "Other / Notes" rec).isSome = true ∧
      (List.lookup "Other / Notes_URL" rec).isSome = true ∧
      ((gazetteTitlesUrls base (cellAt row 1)).2 ≠ [] →
        (List.lookup "ASIC Gazette_title" rec).isSome = true ∧
        (List.lookup "ASIC Gazette_Url" rec).isSome = true) ∧
      ((gazetteTitlesUrls base (cellAt row 2)).2 ≠ [] →
        (List.lookup "Business Gazette_title" rec).isSome = true ∧
        (List.lookup "Business Gazette_Url" rec).isSome = true) ∧
      ((gazetteTitlesUrls base (cellAt row 1)).2 = [] →
        List.lookup "ASIC Gazette_title" rec = none) ∧
      ((gazetteTitlesUrls base (cellAt row 2)).2 = [] →
        List.lookup "Business Gazette_title" rec = none) := by
  intro base year st row rec hrec
  by_cases hlen : row.cells.length < 4
  · rw [extract_row_data_fst_none base year st row hlen] at hrec
    cases hrec
  · rw [extract_row_data_fst base year st row hlen] at hrec
    have hrec' := Option.some.inj hrec
    subst hrec'
    have hYD : ∀ k : String, k.data.head? = some 'A' ∨ k.data.head? = some 'B' →
        List.lookup k
          [("Year", year), ("Date", _clean_text (cellAt row 0).text)] = none := by
      intro k hk
      apply lookup_eq_none_of_keys
      intro p hp
      apply beq_false_of_ne
      rcases List.mem_cons.mp hp with h' | h'
      · rw [h']
        rcases hk with hk | hk
        · exact ne_of_data_head _ _ 'A' 'Y' hk rfl (by decide)
        · exact ne_of_data_head _ _ 'B' 'Y' hk rfl (by decide)
      · simp only [List.mem_singleton] at h'
        rw [h']
        rcases hk with hk | hk
        · exact ne_of_data_head _ _ 'A' 'D' hk rfl (by decide)
        · exact ne_of_data_head _ _ 'B' 'D' hk rfl (by decide)
    have hAblock : ∀ k : String, k.data.head? = some 'B' →
        List.lookup k
          (indexedPairFields "ASIC Gazette_title" "ASIC Gazette_Url" "ASIC Gazette_"
            "ASIC Gazette_Url_"
            ((gazetteTitlesUrls base (cellAt row 1)).1.zip
              (gazetteTitlesUrls base (cellAt row 1)).2)) = none := by
      intro k hk
      apply lookup_eq_none_of_keys
      intro p hp
      apply beq_false_of_ne
      have hh := indexedPairFields_keys_head "ASIC Gazette_title" "ASIC Gazette_Url"
        "ASIC Gazette_" "ASIC Gazette_Url_" 'A' rfl rfl rfl rfl _ p hp
      exact ne_of_data_head _ _ 'B' 'A' hk hh (by decide)
    have hBblock : ∀ k : String, k.data.head? = some 'A' →
        List.lookup k
          (indexedPairFields "Business Gazette_title" "Business Gazette_Url"
            "Business Gazette_" "Business Gazette_Url_"
            ((gazetteTitlesUrls base (cellAt row 2)).1.zip
              (gazetteTitlesUrls base (cellAt row 2)).2)) = none := by
      intro k hk
      apply lookup_eq_none_of_keys
      intro p hp
      apply beq_false_of_ne
      have hh := indexedPairFields_keys_head "Business Gazette_title"
        "Business Gazette_Url" "Business Gazette_" "Business Gazette_Url_" 'B'
        rfl rfl rfl rfl _ p hp
      exact ne_of_data_head _ _ 'A' 'B' hk hh (by decide)
    have hOblock : ∀ k : String, k.data.head? = some 'A' ∨ k.data.head? = some 'B' →
        List.lookup k
          (otherNotesFields (otherNotesTextsUrls base row.cells).1
            (otherNotesTextsUrls base row.cells).2) = none := by
      intro k hk
      apply lookup_eq_none_of_keys
      intro p hp
      apply beq_false_of_ne
      have hh := otherNotesFields_keys_head _ _ p hp
      rcases hk with hk | hk
      · exact ne_of_data_head _ _ 'A' 'O' hk hh (by decide)
      · exact ne_of_data_head _ _ 'B' 'O' hk hh (by decide)
    refine ⟨?_, ?_, ?_, ?_, ?_, ?_⟩
    · rw [List.lookup_append,
        lookup_front_none "Other / Notes" year _ 'O' rfl (by decide) (by decide)
          (by decide) (by decide)]
      exact lookup_ON_otherNotesFields _ _
    · rw [List.lookup_append,
        lookup_front_none "Other / Notes_URL" year _ 'O' rfl (by decide) (by decide)
          (by decide) (by decide)]
      exact lookup_ONU_otherNotesFields _ _
    · intro hurls
      rcases hts : (gazetteTitlesUrls base (cellAt row 1)).1 with _ | ⟨t, ts⟩
      · exact absurd hts (gazette_titles_ne_nil base (cellAt row 1))
      · rcases hus : (gazetteTitlesUrls base (cellAt row 1)).2 with _ | ⟨u, us⟩
        · exact absurd hus hurls
        · constructor <;>
          · simp only [hts, hus, List.lookup_append, List.zip_cons_cons]
            simp [indexedPairFields, List.lookup]
    · intro hurls
      rcases hts : (gazetteTitlesUrls base (cellAt row 2)).1 with _ | ⟨t, ts⟩
      · exact absurd hts (gazette_titles_ne_nil base (cellAt row 2))
      · rcases hus : (gazetteTitlesUrls base (cellAt row 2)).2 with _ | ⟨u, us⟩
        · exact absurd hus hurls
        · constructor <;>
          · simp only [List.lookup_append,
              hYD "Business Gazette_title" (Or.inr rfl),
              hYD "Business Gazette_Url" (Or.inr rfl),
              hAblock "Business Gazette_title" rfl,
              hAblock "Business Gazette_Url" rfl, hts, hus, List.zip_cons_cons]
            simp [indexedPairFields, List.lookup]
    · intro hurls
      rw [List.lookup_append, List.lookup_append, List.lookup_append, hurls,
        hYD "ASIC Gazette_title" (Or.inl rfl),
        hBblock "ASIC Gazette_title" rfl,
        hOblock "ASIC Gazette_title" (Or.inl rfl)]
      simp [indexedPairFields]
    · intro hurls
      rw [List.lookup_append, List.lookup_append, List.lookup_append, hurls,
        hYD "Business Gazette_title" (Or.inr rfl),
        hAblock "Business Gazette_title" rfl,
        hOblock "Business Gazette_title" (Or.inr rfl)]
      simp [indexedPairFields]

/-- Witness for C3 (amended): a concrete accepted row with empty Gazette
cells carries all index-0 keys. -/
theorem C3_witness :
    (List.lookup "Other / Notes"
      (((_extract_row_data "https://asic.gov.au" initMaxLinks
        { cells := [emptyCell, emptyCell, emptyCell, emptyCell], has_th := false }
        "2020").1).getD [])).isSome = true ∧
    (List.lookup "ASIC Gazette_title"
      (((_extract_row_data "https://asic.gov.au" initMaxLinks
        { cells := [emptyCell, emptyCell, emptyCell, emptyCell], has_th := false }
        "2020").1).getD [])).isSome = true ∧
    (List.lookup "Business Gazette_title"
      (((_extract_row_data "https://asic.gov.au" initMaxLinks
        { cells := [emptyCell, emptyCell, emptyCell, emptyCell], has_th := false }
        "2020").1).getD [])).isSome = true :=
  ⟨(C3_amended_index0_presence "https://asic.gov.au" "2020" initMaxLinks
      { cells := [emptyCell, emptyCell, emptyCell, emptyCell], has_th := false }
      _ (by decide)).1,
   ((C3_amended_index0_presence "https://asic.gov.au" "2020" initMaxLinks
      { cells := [emptyCell, emptyCell, emptyCell, emptyCell], has_th := false }
      _ (by decide)).2.2.1 (by decide)).1,
   ((C3_amended_index0_presence "https://asic.gov.au" "2020" initMaxLinks
      { cells := [emptyCell, emptyCell, emptyCell, emptyCell], has_th := false }
      _ (by decide)).2.2.2.1 (by decide)).1⟩

end ASICScraper


namespace ASICScraper

/-! ### C6: 4-cell Notes handling and surplus URLs -/

lemma append_left_ne (p a b : String) (h : a ≠ b) : p ++ a ≠ p ++ b := by
  intro e
  apply h
  have hd := congrArg String.data e
  rw [String.data_append, String.data_append] at hd
  exact String.ext (List.append_cancel_left hd)

lemma ON1_ne_surplus (i : Nat) :
    ("Other / Notes_1" : String) ≠ "Other / Notes_URL_" ++ toString i := by
  have h2 : ("Other / Notes_" ++ "URL_" : String) = "Other / Notes_URL_" := rfl
  rw [show ("Other / Notes_1" : String) = "Other / Notes_" ++ "1" from rfl,
    ← h2, String.append_assoc]
  exact append_left_ne "Other / Notes_" "1" ("URL_" ++ toString i)
    (ne_of_data_head "1" _ '1' 'U' rfl (head_data_append "URL_" _ 'U' rfl) (by decide))

lemma otherNotes_four (base : String) (row : Row) (h4 : row.cells.length = 4)
    (hn : (_extract_cell_content base (cellAt row 3)).1 ≠ "") :
    otherNotesTextsUrls base row.cells =
      ([(_extract_cell_content base (cellAt row 3)).1], notesUrlSlots base row) := by
  unfold otherNotesTextsUrls notesUrlSlots
  unfold cellAt at hn ⊢
  rw [if_pos h4, if_pos hn]

lemma otherNotesFields_single (t : String) (urls : List String) :
    otherNotesFields [t] urls =
      [("Other / Notes", t), ("Other / Notes_URL", urls.getD 0 "")] ++
      (List.range' 1 (urls.length - 1)).map
        (fun i => ("Other / Notes_URL_" ++ toString i, urls.getD i "")) := by
  unfold otherNotesFields
  simp [List.enum, List.enumFrom]

lemma notesUrlSlots_ne_nil (base : String) (row : Row) :
    notesUrlSlots base row ≠ [] := by
  unfold notesUrlSlots
  split
  · simp
  · assumption

/-- C6: in an accepted 4-cell row whose Notes cell has nonempty cleaned
text, the record carries exactly one Other / Notes text entry holding that
text (no index-1 text key), the index-0 URL slot holds the first extracted
URL, and every surplus URL i is preserved as a title-less indexed
Other / Notes_URL_i field. -/
theorem C6_four_cell_notes_and_surplus_urls :
    ∀ (base year : String) (st : SchemaState) (row : Row),
      row.cells.length = 4 →
      (_extract_cell_content base (cellAt row 3)).1 ≠ "" →
      ∃ rec, (_extract_row_data base st row year).1 = some rec ∧
        List.lookup "Other / Notes" rec =
          some ((_extract_cell_content base (cellAt row 3)).1) ∧
        List.lookup "Other / Notes_1" rec = none ∧
        List.lookup "Other / Notes_URL" rec =
          some ((notesUrlSlots base row).getD 0 "") ∧
        (∀ i, 1 ≤ i → i < (notesUrlSlots base row).length →
          ("Other / Notes_URL_" ++ toString i, (notesUrlSlots base row).getD i "")
            ∈ rec) := by
  intro base year st row h4 hn
  have hlen : ¬ row.cells.length < 4 := by omega
  have hON := otherNotes_four base row h4 hn
  refine ⟨_, extract_row_data_fst base year st row hlen, ?_, ?_, ?_, ?_⟩
  · rw [List.lookup_append,
      lookup_front_none "Other / Notes" year _ 'O' rfl (by decide) (by decide)
        (by decide) (by decide)]
    simp only [hON, otherNotesFields_single]
    simp [List.lookup]
  · rw [List.lookup_append,
      lookup_front_none "Other / Notes_1" year _ 'O' rfl (by decide) (by decide)
        (by decide) (by decide)]
    simp only [hON, otherNotesFields_single]
    rw [List.lookup_append]
    have h1 : List.lookup "Other / Notes_1"
        [("Other / Notes", (_extract_cell_content base (cellAt row 3)).1),
         ("Other / Notes_URL", (notesUrlSlots base row).getD 0 "")] = none := by
      simp [List.lookup]
    have h2 : List.lookup "Other / Notes_1"
        ((List.range' 1 ((notesUrlSlots base row).length - 1)).map
          (fun i => ("Other / Notes_URL_" ++ toString i,
            (notesUrlSlots base row).getD i ""))) = none := by
      apply lookup_eq_none_of_keys
      intro p hp
      rw [List.mem_map] at hp
      obtain ⟨i, _, hpq⟩ := hp
      rw [← hpq]
      exact beq_false_of_ne (ON1_ne_surplus i)
    rw [h1, h2]
    rfl
  · rw [List.lookup_append,
      lookup_front_none "Other / Notes_URL" year _ 'O' rfl (by decide) (by decide)
        (by decide) (by decide)]
    simp only [hON, otherNotesFields_single]
    simp [List.lookup]
  · intro i hi1 hi2
    apply List.mem_append_right
    simp only [hON, otherNotesFields_single]
    apply List.mem_append_right
    rw [List.mem_map]
    refine ⟨i, ?_, rfl⟩
    rw [List.mem_range'_1]
    have hnn := notesUrlSlots_ne_nil base row
    have hlen1 : 1 ≤ (notesUrlSlots base row).length := by
      rcases hs : notesUrlSlots base row with _ | ⟨a, t⟩
      · exact absurd hs hnn
      · simp
    omega

/-- Witness for C6: a concrete 4-cell row whose Notes cell has text and
two links yields the Other / Notes entry, its URL, and the surplus
title-less Other / Notes_URL_1 field. -/
theorem C6_witness :
    ∃ rec, (_extract_row_data "https://asic.gov.au" initMaxLinks sampleNotesRow
        "2020").1 = some rec ∧
      List.lookup "Other / Notes" rec =
        some ((_extract_cell_content "https://asic.gov.au"
          (cellAt sampleNotesRow 3)).1) ∧
      List.lookup "Other / Notes_1" rec = none ∧
      List.lookup "Other / Notes_URL" rec =
        some ((notesUrlSlots "https://asic.gov.au" sampleNotesRow).getD 0 "") ∧
      (∀ i, 1 ≤ i → i < (notesUrlSlots "https://asic.gov.au" sampleNotesRow).length →
        ("Other / Notes_URL_" ++ toString i,
          (notesUrlSlots "https://asic.gov.au" sampleNotesRow).getD i "")
          ∈ rec) :=
  C6_four_cell_notes_and_surplus_urls "https://asic.gov.au" "2020" initMaxLinks
    sampleNotesRow (by decide) (by decide)

end ASICScraper


namespace ASICScraper

end ASICScraper


namespace ASICScraper

/-! ### C9: the words/join theory of clean_text -/

lemma pyIsSpace_space : pyIsSpace ' ' = true := by decide

lemma notSp_space : notSp ' ' = false := by decide

lemma words_cons_eq (c : Char) (cs : List Char) :
    words (c :: cs) = if pyIsSpace c then words cs else
      match words cs, cs with
      | [], _ => [[c]]
      | _ :: _, [] => [[c]]
      | w :: ws, d :: _ => if pyIsSpace d then [c] :: w :: ws else (c :: w) :: ws := rfl

lemma words_cons (c : Char) (cs : List Char) :
    words (c :: cs) =
      if pyIsSpace c then words cs
      else (c :: cs.takeWhile notSp) :: words (cs.dropWhile notSp) := by
  induction cs generalizing c with
  | nil =>
    rw [words_cons_eq]
    by_cases hc : pyIsSpace c = true
    · rw [if_pos hc, if_pos hc]
    · rw [if_neg hc, if_neg hc]
      rfl
  | cons d t ih =>
    rw [words_cons_eq]
    by_cases hc : pyIsSpace c = true
    · rw [if_pos hc, if_pos hc]
    · rw [if_neg hc, if_neg hc]
      by_cases hd : pyIsSpace d = true
      · have hnd : ¬ (notSp d = true) := by simp [notSp, hd]
        rcases hW : words (d :: t) with _ | ⟨w, ws⟩
        · rw [List.takeWhile_cons, if_neg hnd, List.dropWhile_cons, if_neg hnd, hW]
        · rw [List.takeWhile_cons, if_neg hnd, List.dropWhile_cons, if_neg hnd, hW]
          show (if pyIsSpace d then [c] :: w :: ws else (c :: w) :: ws) =
            [c] :: w :: ws
          rw [if_pos hd]
      · have hnd : notSp d = true := by simp [notSp, hd]
        have hWd := ih d
        rw [if_neg hd] at hWd
        rw [List.takeWhile_cons, if_pos hnd, List.dropWhile_cons, if_pos hnd, hWd]
        show (if pyIsSpace d
            then [c] :: (d :: t.takeWhile notSp) :: words (t.dropWhile notSp)
            else (c :: d :: t.takeWhile notSp) :: words (t.dropWhile notSp)) =
          (c :: d :: t.takeWhile notSp) :: words (t.dropWhile notSp)
        rw [if_neg hd]

lemma mem_takeWhile_sat {p : Char → Bool} {l : List Char} {x : Char}
    (hx : x ∈ l.takeWhile p) : p x = true := List.mem_takeWhile_imp hx

lemma words_mem_aux (n : Nat) :
    ∀ (l : List Char), l.length ≤ n → ∀ w ∈ words l,
      w ≠ [] ∧ ∀ c ∈ w, pyIsSpace c = false := by
  induction n with
  | zero =>
    intro l hl
    have h0 : l = [] := List.eq_nil_of_length_eq_zero (Nat.le_zero.mp hl)
    subst h0
    intro w hw
    cases hw
  | succ n ih =>
    intro l hl
    cases l with
    | nil => intro w hw; cases hw
    | cons c cs =>
      rw [words_cons]
      by_cases hc : pyIsSpace c = true
      · rw [if_pos hc]
        exact ih cs (by simpa using Nat.le_of_succ_le_succ hl)
      · rw [if_neg hc]
        intro w hw
        rcases List.mem_cons.mp hw with hw | hw
        · subst hw
          refine ⟨List.cons_ne_nil _ _, ?_⟩
          intro x hx
          rcases List.mem_cons.mp hx with hx | hx
          · subst hx; exact eq_false_of_ne_true hc
          · have hx' := mem_takeWhile_sat hx
            simpa [notSp] using hx'
        · have hlen : (cs.dropWhile notSp).length ≤ n := by
            have h1 : (cs.dropWhile notSp).length ≤ cs.length :=
              (List.dropWhile_suffix notSp).sublist.length_le
            have h2 : cs.length ≤ n := by simpa using Nat.le_of_succ_le_succ hl
            omega
          exact ih (cs.dropWhile notSp) hlen w hw

lemma words_mem {l : List Char} {w : List Char} (hw : w ∈ words l) :
    w ≠ [] ∧ ∀ c ∈ w, pyIsSpace c = false :=
  words_mem_aux l.length l (le_refl _) w hw

lemma takeWhile_append_all {p : Char → Bool} (w t : List Char)
    (hw : ∀ c ∈ w, p c = true) : (w ++ t).takeWhile p = w ++ t.takeWhile p := by
  induction w with
  | nil => rfl
  | cons a w' ih =>
    rw [List.cons_append, List.takeWhile_cons, if_pos (hw a (List.mem_cons_self _ _)),
      ih (fun c hc => hw c (List.mem_cons_of_mem _ hc)), List.cons_append]

lemma dropWhile_append_all {p : Char → Bool} (w t : List Char)
    (hw : ∀ c ∈ w, p c = true) : (w ++ t).dropWhile p = t.dropWhile p := by
  induction w with
  | nil => rfl
  | cons a w' ih =>
    rw [List.cons_append, List.dropWhile_cons, if_pos (hw a (List.mem_cons_self _ _))]
    exact ih (fun c hc => hw c (List.mem_cons_of_mem _ hc))

lemma takeWhile_all {p : Char → Bool} (l : List Char)
    (h : ∀ c ∈ l, p c = true) : l.takeWhile p = l := by
  induction l with
  | nil => rfl
  | cons a t ih =>
    rw [List.takeWhile_cons, if_pos (h a (List.mem_cons_self _ _)),
      ih (fun c hc => h c (List.mem_cons_of_mem _ hc))]

lemma dropWhile_all {p : Char → Bool} (l : List Char)
    (h : ∀ c ∈ l, p c = true) : l.dropWhile p = [] := by
  induction l with
  | nil => rfl
  | cons a t ih =>
    rw [List.dropWhile_cons, if_pos (h a (List.mem_cons_self _ _))]
    exact ih (fun c hc => h c (List.mem_cons_of_mem _ hc))

lemma words_word_append (w r : List Char) (hw1 : w ≠ [])
    (hw2 : ∀ c ∈ w, pyIsSpace c = false) :
    words (w ++ ' ' :: r) = w :: words r := by
  cases w with
  | nil => exact absurd rfl hw1
  | cons a w' =>
    have hall : ∀ c ∈ w', notSp c = true := by
      intro c hc
      simp [notSp, hw2 c (List.mem_cons_of_mem _ hc)]
    rw [List.cons_append, words_cons,
      if_neg (by simp [hw2 a (List.mem_cons_self _ _)]),
      takeWhile_append_all w' (' ' :: r) hall,
      dropWhile_append_all w' (' ' :: r) hall,
      List.takeWhile_cons, if_neg (by simp [notSp_space]),
      List.dropWhile_cons, if_neg (by simp [notSp_space]),
      List.append_nil, words_cons, if_pos pyIsSpace_space]

lemma words_word_only (w : List Char) (hw1 : w ≠ [])
    (hw2 : ∀ c ∈ w, pyIsSpace c = false) : words w = [w] := by
  cases w with
  | nil => exact absurd rfl hw1
  | cons a w' =>
    have hall : ∀ c ∈ w', notSp c = true := by
      intro c hc
      simp [notSp, hw2 c (List.mem_cons_of_mem _ hc)]
    rw [words_cons, if_neg (by simp [hw2 a (List.mem_cons_self _ _)]),
      takeWhile_all w' hall, dropWhile_all w' hall]
    rfl

lemma joinWords_cons_cons (w x : List Char) (xs : List (List Char)) :
    joinWords (w :: x :: xs) = w ++ ' ' :: joinWords (x :: xs) := rfl

lemma words_joinWords (ws : List (List Char))
    (h : ∀ w ∈ ws, w ≠ [] ∧ ∀ c ∈ w, pyIsSpace c = false) :
    words (joinWords ws) = ws := by
  induction ws with
  | nil => rfl
  | cons w ws ih =>
    cases ws with
    | nil =>
      exact words_word_only w (h w (List.mem_cons_self _ _)).1
        (h w (List.mem_cons_self _ _)).2
    | cons x xs =>
      rw [joinWords_cons_cons,
        words_word_append w _ (h w (List.mem_cons_self _ _)).1
          (h w (List.mem_cons_self _ _)).2,
        ih (fun v hv => h v (List.mem_cons_of_mem _ hv))]

end ASICScraper


namespace ASICScraper

/-! ### C9: ends and normal form of the joined words -/

lemma joinWords_ne_nil (w : List Char) (ws : List (List Char)) (hw : w ≠ []) :
    joinWords (w :: ws) ≠ [] := by
  cases ws with
  | nil => exact hw
  | cons x xs =>
    rw [joinWords_cons_cons]
    intro h
    rw [List.append_eq_nil] at h
    cases h.2

lemma joinWords_head (w : List Char) (ws : List (List Char)) (hw : w ≠ []) :
    (joinWords (w :: ws)).head? = w.head? := by
  cases ws with
  | nil => rfl
  | cons x xs =>
    rw [joinWords_cons_cons, List.head?_append]
    cases w with
    | nil => exact absurd rfl hw
    | cons a t => rfl

lemma joinWords_getLast (ws : List (List Char)) (h : ∀ w ∈ ws, w ≠ []) :
    ∀ c, (joinWords ws).getLast? = some c → ∃ w ∈ ws, w.getLast? = some c := by
  induction ws with
  | nil => intro c hc; cases hc
  | cons w ws ih =>
    cases ws with
    | nil =>
      intro c hc
      exact ⟨w, List.mem_cons_self _ _, hc⟩
    | cons x xs =>
      intro c hc
      rw [joinWords_cons_cons] at hc
      have hne : (' ' :: joinWords (x :: xs)) ≠ [] := by simp
      rw [List.getLast?_append_of_ne_nil _ hne] at hc
      have hjne := joinWords_ne_nil x xs (h x (by simp))
      rw [show (' ' :: joinWords (x :: xs)) = [' '] ++ joinWords (x :: xs) from rfl,
        List.getLast?_append_of_ne_nil _ hjne] at hc
      obtain ⟨v, hv, hvc⟩ := ih (fun u hu => h u (List.mem_cons_of_mem _ hu)) c hc
      exact ⟨v, List.mem_cons_of_mem _ hv, hvc⟩

lemma mem_joinWords (ws : List (List Char)) (c : Char) (hc : c ∈ joinWords ws) :
    c = ' ' ∨ ∃ w ∈ ws, c ∈ w := by
  induction ws with
  | nil => cases hc
  | cons w ws ih =>
    cases ws with
    | nil => exact Or.inr ⟨w, List.mem_cons_self _ _, hc⟩
    | cons x xs =>
      rw [joinWords_cons_cons] at hc
      rcases List.mem_append.mp hc with hc | hc
      · exact Or.inr ⟨w, List.mem_cons_self _ _, hc⟩
      · rcases List.mem_cons.mp hc with hc | hc
        · exact Or.inl hc
        · rcases ih hc with hc | ⟨v, hv, hcv⟩
          · exact Or.inl hc
          · exact Or.inr ⟨v, List.mem_cons_of_mem _ hv, hcv⟩

lemma pyStrip_id (l : List Char)
    (h1 : ∀ c, l.head? = some c → pyIsSpace c = false)
    (h2 : ∀ c, l.getLast? = some c → pyIsSpace c = false) :
    pyStrip l = l := by
  unfold pyStrip
  have hd : l.dropWhile pyIsSpace = l := by
    cases l with
    | nil => rfl
    | cons a t => rw [List.dropWhile_cons, if_neg (by simp [h1 a rfl])]
  rw [hd]
  have hr : l.reverse.dropWhile pyIsSpace = l.reverse := by
    cases hrev : l.reverse with
    | nil => rfl
    | cons a t =>
      have hla : l.getLast? = some a := by
        rw [← List.head?_reverse, hrev]
        rfl
      rw [List.dropWhile_cons, if_neg (by simp [h2 a hla])]
  rw [hr, List.reverse_reverse]

lemma clean_core_head (m : List Char) :
    ∀ c, (joinWords (words m)).head? = some c → pyIsSpace c = false := by
  intro c hc
  cases hW : words m with
  | nil => rw [hW] at hc; cases hc
  | cons w ws =>
    have hmem : w ∈ words m := by rw [hW]; exact List.mem_cons_self _ _
    have hprops := words_mem hmem
    rw [hW, joinWords_head w ws hprops.1] at hc
    exact hprops.2 c (List.mem_of_mem_head? hc)

lemma clean_core_last (m : List Char) :
    ∀ c, (joinWords (words m)).getLast? = some c → pyIsSpace c = false := by
  intro c hc
  obtain ⟨w, hw, hlast⟩ :=
    joinWords_getLast (words m) (fun w hw => (words_mem hw).1) c hc
  exact (words_mem hw).2 c (List.mem_of_mem_getLast? hlast)

lemma ndsp_of_append (w l : List Char) (hw : ∀ c ∈ w, pyIsSpace c = false)
    (hl : noDoubleSpace l = true) : noDoubleSpace (w ++ l) = true := by
  induction w with
  | nil => simpa using hl
  | cons a w' ih =>
    have ha : a ≠ ' ' := by
      intro e
      subst e
      have hsp := pyIsSpace_space
      rw [hw ' ' (List.mem_cons_self _ _)] at hsp
      exact Bool.false_ne_true hsp
    have ih' := ih (fun c hc => hw c (List.mem_cons_of_mem _ hc))
    rw [List.cons_append]
    cases hwl : w' ++ l with
    | nil => rfl
    | cons b t =>
      have hbt : noDoubleSpace (b :: t) = true := by rw [← hwl]; exact ih'
      show (!(decide (a = ' ') && decide (b = ' ')) && noDoubleSpace (b :: t)) = true
      rw [decide_eq_false ha, hbt]
      rfl

lemma joinWords_ndsp (ws : List (List Char))
    (h : ∀ w ∈ ws, w ≠ [] ∧ ∀ c ∈ w, pyIsSpace c = false) :
    noDoubleSpace (joinWords ws) = true := by
  induction ws with
  | nil => rfl
  | cons w ws ih =>
    cases ws with
    | nil =>
      have hh := ndsp_of_append w [] (h w (List.mem_cons_self _ _)).2 rfl
      rwa [List.append_nil] at hh
    | cons x xs =>
      rw [joinWords_cons_cons]
      apply ndsp_of_append w _ (h w (List.mem_cons_self _ _)).2
      cases hj : joinWords (x :: xs) with
      | nil => rfl
      | cons b t =>
        have hxprops := h x (List.mem_cons_of_mem _ (List.mem_cons_self _ _))
        have hb : b ≠ ' ' := by
          have hh : (joinWords (x :: xs)).head? = x.head? :=
            joinWords_head x xs hxprops.1
          rw [hj] at hh
          have hbx : b ∈ x := List.mem_of_mem_head? hh.symm
          intro e
          subst e
          have hsp := pyIsSpace_space
          rw [hxprops.2 ' ' hbx] at hsp
          exact Bool.false_ne_true hsp
        have hbt : noDoubleSpace (b :: t) = true := by
          rw [← hj]
          exact ih (fun u hu => h u (List.mem_cons_of_mem _ hu))
        show (!(decide (' ' = ' ') && decide (b = ' ')) && noDoubleSpace (b :: t)) = true
        rw [decide_eq_false hb, hbt]
        simp

end ASICScraper


namespace ASICScraper

/-! ### C9: occurrence (contiguous-segment) toolkit and replaceEntity -/

lemma seg_cons {p l : List Char} (a : Char) (h : p <:+: l) : p <:+: a :: l := by
  obtain ⟨s, t, hst⟩ := h
  refine ⟨a :: s, t, ?_⟩
  rw [List.cons_append, List.cons_append, hst]

lemma seg_trans {p q l : List Char} (h1 : p <:+: q) (h2 : q <:+: l) : p <:+: l := by
  obtain ⟨s1, t1, hq⟩ := h1
  obtain ⟨s2, t2, hl⟩ := h2
  refine ⟨s2 ++ s1, t1 ++ t2, ?_⟩
  rw [← hl, ← hq]
  simp [List.append_assoc]

lemma seg_of_pfx {p l : List Char} (h : p <+: l) : p <:+: l := by
  obtain ⟨t, ht⟩ := h
  exact ⟨[], t, by simpa using ht⟩

lemma seg_of_sfx {p l : List Char} (h : p <:+ l) : p <:+: l := by
  obtain ⟨s, hs⟩ := h
  exact ⟨s, [], by simpa using hs⟩

lemma pat_in_cons {p l : List Char} {a : Char} (h : p <:+: a :: l) :
    p <+: a :: l ∨ p <:+: l := by
  obtain ⟨s, t, hst⟩ := h
  cases s with
  | nil =>
    exact Or.inl ⟨t, by simpa using hst⟩
  | cons b s' =>
    rw [List.cons_append, List.cons_append] at hst
    injection hst with h1 h2
    exact Or.inr ⟨s', t, h2⟩

lemma replaceEntity_pat (rest : List Char) :
    replaceEntity ('&' :: 'n' :: 'b' :: 's' :: 'p' :: ';' :: rest) =
      ' ' :: replaceEntity rest := rfl

lemma replaceEntity_cons (c : Char) (cs : List Char)
    (h : ¬ nbspEntity.isPrefixOf (c :: cs)) :
    replaceEntity (c :: cs) = c :: replaceEntity cs := by
  rw [replaceEntity.eq_def]
  split
  · rename_i rest heq
    exfalso
    apply h
    rw [heq]
    simp [nbspEntity, List.isPrefixOf]
  · rename_i c' cs' heq
    injection heq with h1 h2
    subst h1
    subst h2
    rfl
  · rename_i heq
    cases heq

lemma prefix_reflect (n : Nat) : ∀ (l p : List Char), l.length ≤ n →
    (∀ x ∈ p, x ≠ ' ') → p <+: replaceEntity l → p <+: l := by
  induction n with
  | zero =>
    intro l p hl _ hpre
    have hl0 : l = [] := List.eq_nil_of_length_eq_zero (Nat.le_zero.mp hl)
    subst hl0
    exact hpre
  | succ n ih =>
    intro l p hl hp hpre
    cases l with
    | nil => exact hpre
    | cons c cs =>
      by_cases hpf : nbspEntity.isPrefixOf (c :: cs)
      · obtain ⟨t, ht⟩ := List.isPrefixOf_iff_prefix.mp hpf
        have hre : replaceEntity (c :: cs) = ' ' :: replaceEntity t := by
          rw [← ht]
          exact replaceEntity_pat t
        rw [hre] at hpre
        cases p with
        | nil => exact ⟨c :: cs, by simp⟩
        | cons x p' =>
          obtain ⟨u, hu⟩ := hpre
          rw [List.cons_append] at hu
          injection hu with h1 _
          exact absurd h1 (hp x (List.mem_cons_self _ _))
      · rw [replaceEntity_cons c cs hpf] at hpre
        cases p with
        | nil => exact ⟨c :: cs, by simp⟩
        | cons x p' =>
          obtain ⟨u, hu⟩ := hpre
          rw [List.cons_append] at hu
          injection hu with h1 h2
          subst h1
          obtain ⟨v, hv⟩ := ih cs p' (by simpa using Nat.le_of_succ_le_succ hl)
            (fun y hy => hp y (List.mem_cons_of_mem _ hy)) ⟨u, h2⟩
          exact ⟨v, by rw [List.cons_append, hv]⟩

lemma replaceEntity_no_pat (l : List Char) :
    ¬ (nbspEntity <:+: replaceEntity l) := by
  suffices h : ∀ (n : Nat) (l : List Char), l.length ≤ n →
      ¬ (nbspEntity <:+: replaceEntity l) from h l.length l (le_refl _)
  intro n
  induction n with
  | zero =>
    intro l hl hinf
    have hl0 : l = [] := List.eq_nil_of_length_eq_zero (Nat.le_zero.mp hl)
    subst hl0
    obtain ⟨s, t, hst⟩ := hinf
    rw [show replaceEntity [] = ([] : List Char) from rfl] at hst
    simp [nbspEntity] at hst
  | succ n ih =>
    intro l hl hinf
    cases l with
    | nil =>
      obtain ⟨s, t, hst⟩ := hinf
      rw [show replaceEntity [] = ([] : List Char) from rfl] at hst
      simp [nbspEntity] at hst
    | cons c cs =>
      by_cases hpf : nbspEntity.isPrefixOf (c :: cs)
      · obtain ⟨t, ht⟩ := List.isPrefixOf_iff_prefix.mp hpf
        have hre : replaceEntity (c :: cs) = ' ' :: replaceEntity t := by
          rw [← ht]
          exact replaceEntity_pat t
        rw [hre] at hinf
        rcases pat_in_cons hinf with hpre | hinf'
        · obtain ⟨u, hu⟩ := hpre
          have hu' : '&' :: ('n' :: 'b' :: 's' :: 'p' :: ';' :: u) =
              ' ' :: replaceEntity t := by simpa [nbspEntity] using hu
          injection hu' with h1 _
          exact absurd h1 (by decide)
        · have hlen : t.length ≤ n := by
            have hlt := congrArg List.length ht
            simp [nbspEntity] at hlt
            simp at hl
            omega
          exact ih t hlen hinf'
      · rw [replaceEntity_cons c cs hpf] at hinf
        rcases pat_in_cons hinf with hpre | hinf'
        · obtain ⟨u, hu⟩ := hpre
          have hu' : '&' :: ('n' :: 'b' :: 's' :: 'p' :: ';' :: u) =
              c :: replaceEntity cs := by simpa [nbspEntity] using hu
          injection hu' with h1 h2
          apply hpf
          rw [List.isPrefixOf_iff_prefix]
          have htail : ('n' :: 'b' :: 's' :: 'p' :: ';' :: ([] : List Char)) <+:
              replaceEntity cs := ⟨u, by simpa using h2⟩
          obtain ⟨v, hv⟩ := prefix_reflect cs.length cs _ (le_refl _)
            (by decide) htail
          refine ⟨v, ?_⟩
          rw [← h1] at *
          have hcv := congrArg (List.cons '&') hv
          simpa [nbspEntity] using hcv
        · exact ih cs (by simpa using Nat.le_of_succ_le_succ hl) hinf'

lemma replaceEntity_id (l : List Char) (h : ¬ (nbspEntity <:+: l)) :
    replaceEntity l = l := by
  induction l with
  | nil => rfl
  | cons c cs ih =>
    by_cases hpf : nbspEntity.isPrefixOf (c :: cs)
    · exfalso
      apply h
      obtain ⟨t, ht⟩ := List.isPrefixOf_iff_prefix.mp hpf
      exact ⟨[], t, by simpa using ht⟩
    · rw [replaceEntity_cons c cs hpf, ih (fun hinf => h (seg_cons c hinf))]

lemma pfx_no_space_reflect : ∀ (p w r : List Char), (∀ x ∈ p, x ≠ ' ') →
    p <+: w ++ ' ' :: r → p <+: w := by
  intro p
  induction p with
  | nil => intro w r _ _; exact ⟨w, by simp⟩
  | cons a p' ih =>
    intro w r hp hpre
    cases w with
    | nil =>
      obtain ⟨t, ht⟩ := hpre
      rw [List.cons_append] at ht
      injection ht with h1 _
      exact absurd h1 (hp a (List.mem_cons_self _ _))
    | cons b w' =>
      obtain ⟨t, ht⟩ := hpre
      rw [List.cons_append, List.cons_append] at ht
      injection ht with h1 h2
      subst h1
      obtain ⟨v, hv⟩ := ih w' r (fun y hy => hp y (List.mem_cons_of_mem _ hy)) ⟨t, h2⟩
      exact ⟨v, by rw [List.cons_append, hv]⟩

lemma pat_in_append : ∀ (w r p : List Char), p ≠ [] → (∀ x ∈ p, x ≠ ' ') →
    p <:+: w ++ ' ' :: r → p <:+: w ∨ p <:+: r := by
  intro w
  induction w with
  | nil =>
    intro r p hp1 hp2 h
    rcases pat_in_cons (show p <:+: ' ' :: r by simpa using h) with hpre | hinf
    · cases p with
      | nil => exact absurd rfl hp1
      | cons x p' =>
        obtain ⟨t, ht⟩ := hpre
        rw [List.cons_append] at ht
        injection ht with h1 _
        exact absurd h1 (hp2 x (List.mem_cons_self _ _))
    · exact Or.inr hinf
  | cons b w' ih =>
    intro r p hp1 hp2 h
    rw [List.cons_append] at h
    rcases pat_in_cons h with hpre | hinf
    · have hbw := pfx_no_space_reflect p (b :: w') r hp2
        (by rw [List.cons_append]; exact hpre)
      exact Or.inl (seg_of_pfx hbw)
    · rcases ih r p hp1 hp2 hinf with h' | h'
      · exact Or.inl (seg_cons b h')
      · exact Or.inr h'

lemma pat_in_join : ∀ (ws : List (List Char)) (p : List Char), p ≠ [] →
    (∀ x ∈ p, x ≠ ' ') → p <:+: joinWords ws → ∃ w ∈ ws, p <:+: w := by
  intro ws
  induction ws with
  | nil =>
    intro p hp1 _ h
    obtain ⟨s, t, hst⟩ := h
    rw [show joinWords [] = ([] : List Char) from rfl] at hst
    have hpnil := List.append_eq_nil.mp (List.append_eq_nil.mp hst).1
    exact absurd hpnil.2 hp1
  | cons w ws ih =>
    cases ws with
    | nil =>
      intro p hp1 hp2 h
      exact ⟨w, List.mem_cons_self _ _, h⟩
    | cons x xs =>
      intro p hp1 hp2 h
      rw [joinWords_cons_cons] at h
      rcases pat_in_append w (joinWords (x :: xs)) p hp1 hp2 h with h' | h'
      · exact ⟨w, List.mem_cons_self _ _, h'⟩
      · obtain ⟨v, hv, hvp⟩ := ih p hp1 hp2 h'
        exact ⟨v, List.mem_cons_of_mem _ hv, hvp⟩

lemma words_seg (l : List Char) : ∀ w ∈ words l, w <:+: l := by
  suffices h : ∀ (n : Nat) (l : List Char), l.length ≤ n →
      ∀ w ∈ words l, w <:+: l from h l.length l (le_refl _)
  intro n
  induction n with
  | zero =>
    intro l hl w hw
    have hl0 : l = [] := List.eq_nil_of_length_eq_zero (Nat.le_zero.mp hl)
    subst hl0
    cases hw
  | succ n ih =>
    intro l hl w hw
    cases l with
    | nil => cases hw
    | cons c cs =>
      rw [words_cons] at hw
      by_cases hc : pyIsSpace c = true
      · rw [if_pos hc] at hw
        exact seg_cons c (ih cs (by simpa using Nat.le_of_succ_le_succ hl) w hw)
      · rw [if_neg hc] at hw
        rcases List.mem_cons.mp hw with hw | hw
        · subst hw
          exact seg_of_pfx ⟨cs.dropWhile notSp,
            by rw [List.cons_append, List.takeWhile_append_dropWhile]⟩
        · have hlen : (cs.dropWhile notSp).length ≤ n := by
            have h1 : (cs.dropWhile notSp).length ≤ cs.length :=
              (List.dropWhile_suffix notSp).sublist.length_le
            have h2 : cs.length ≤ n := by simpa using Nat.le_of_succ_le_succ hl
            omega
          exact seg_cons c (seg_trans (ih (cs.dropWhile notSp) hlen w hw)
            (seg_of_sfx (List.dropWhile_suffix notSp)))

end ASICScraper


namespace ASICScraper

/-! ### C9: assembly -/

lemma clean_no_nbsp_char (m : List Char) :
    ∀ c ∈ joinWords (words m), c ≠ '\u00a0' := by
  intro c hc he
  rcases mem_joinWords (words m) c hc with h | ⟨w, hw, hcw⟩
  · rw [he] at h
    exact absurd h (by decide)
  · have hws := (words_mem hw).2 c hcw
    rw [he] at hws
    exact absurd hws (by decide)

lemma replaceNbspChar_id (l : List Char) (h : ∀ c ∈ l, c ≠ '\u00a0') :
    replaceNbspChar l = l := by
  unfold replaceNbspChar
  induction l with
  | nil => rfl
  | cons a t ih =>
    rw [List.map_cons, if_neg (h a (List.mem_cons_self _ _)),
      ih (fun c hc => h c (List.mem_cons_of_mem _ hc))]

lemma cleanChars_eq_join (l : List Char) :
    cleanChars l = joinWords (words (replaceEntity (replaceNbspChar l))) := by
  unfold cleanChars
  exact pyStrip_id _ (clean_core_head _) (clean_core_last _)

lemma cleanChars_idem (l : List Char) :
    cleanChars (cleanChars l) = cleanChars l := by
  rw [cleanChars_eq_join l]
  have hm := replaceEntity_no_pat (replaceNbspChar l)
  have hchar := clean_no_nbsp_char (replaceEntity (replaceNbspChar l))
  have hJ_nopat : ¬ (nbspEntity <:+:
      joinWords (words (replaceEntity (replaceNbspChar l)))) := by
    intro hinf
    obtain ⟨w, hw, hwp⟩ := pat_in_join (words (replaceEntity (replaceNbspChar l)))
      nbspEntity (by decide) (by decide) hinf
    exact hm (seg_trans hwp (words_seg _ w hw))
  unfold cleanChars
  rw [replaceNbspChar_id _ hchar, replaceEntity_id _ hJ_nopat,
    words_joinWords _ (fun w hw => words_mem hw)]
  exact pyStrip_id _ (clean_core_head _) (clean_core_last _)

/-- C9: clean_text yields the empty string on empty input, strips the
non-breaking-space variants (literal U+00A0 and the entity spelling),
collapses whitespace runs and trims (its output's whitespace characters
are single ordinary spaces, never doubled, never at either end), and is
idempotent on every input. -/
theorem C9_clean_text_idempotent_and_normalizing :
    (_clean_text "" = "") ∧
    (∀ s : String, _clean_text (_clean_text s) = _clean_text s) ∧
    (_clean_text "a\u00a0\u00a0b&nbsp;c" = "a b c") ∧
    (∀ s : String,
      (∀ c ∈ (_clean_text s).data, pyIsSpace c = true → c = ' ') ∧
      noDoubleSpace (_clean_text s).data = true ∧
      (∀ c, (_clean_text s).data.head? = some c → pyIsSpace c = false) ∧
      (∀ c, (_clean_text s).data.getLast? = some c → pyIsSpace c = false)) := by
  refine ⟨rfl, ?_, by decide, ?_⟩
  · intro s
    by_cases hs : s.data = []
    · rw [show _clean_text s = "" by unfold _clean_text; rw [if_pos hs]]
      rfl
    · have h1 : _clean_text s = String.mk (cleanChars s.data) := by
        unfold _clean_text
        rw [if_neg hs]
      rw [h1]
      by_cases hL : cleanChars s.data = []
      · rw [show _clean_text (String.mk (cleanChars s.data)) = "" by
          unfold _clean_text; rw [if_pos hL]]
        rw [hL]
      · have h2 : _clean_text (String.mk (cleanChars s.data)) =
            String.mk (cleanChars (cleanChars s.data)) := by
          unfold _clean_text
          rw [if_neg hL]
        rw [h2, cleanChars_idem]
  · intro s
    by_cases hs : s.data = []
    · have h0 : _clean_text s = "" := by
        unfold _clean_text
        rw [if_pos hs]
      rw [h0]
      refine ⟨?_, rfl, ?_, ?_⟩
      · intro c hc
        rw [show ("" : String).data = [] from rfl] at hc
        cases hc
      · intro c hc
        rw [show ("" : String).data = [] from rfl] at hc
        cases hc
      · intro c hc
        rw [show ("" : String).data = [] from rfl] at hc
        cases hc
    · have h1 : _clean_text s = String.mk (cleanChars s.data) := by
        unfold _clean_text
        rw [if_neg hs]
      rw [h1, cleanChars_eq_join]
      refine ⟨?_, joinWords_ndsp _ (fun w hw => words_mem hw),
        clean_core_head _, clean_core_last _⟩
      intro c hc hsp
      rcases mem_joinWords _ c hc with h | ⟨w, hw, hcw⟩
      · exact h
      · have hws := (words_mem hw).2 c hcw
        rw [hws] at hsp
        cases hsp

/-- Witness for C9: idempotence and the no-double-space normal form at a
concrete messy input. -/
theorem C9_witness :
    _clean_text (_clean_text " a\u00a0&nbsp;b ") = _clean_text " a\u00a0&nbsp;b " ∧
    noDoubleSpace (_clean_text " a\u00a0&nbsp;b ").data = true :=
  ⟨C9_clean_text_idempotent_and_normalizing.2.1 " a\u00a0&nbsp;b ",
   (C9_clean_text_idempotent_and_normalizing.2.2.2 " a\u00a0&nbsp;b ").2.1⟩

end ASICScraper
